import Mathlib

/-!
Verification development for the `exa` path-resolution and traversal core
(`src/main.rs`): a scatter-gather resolver (`Exa::load`) that probes each
input path concurrently and funnels outcomes into a files bucket and a
pending-directory bucket, and a stack-based traversal driver
(`Exa::print_dirs`) that expands directories depth-bounded and in display
order.

The embedding models paths as lists of components, the filesystem as
explicit functions (`metadata`, `readdir`), the printer as a list of output
events, and the thread/channel protocol of `Exa::load` as a small labelled
transition system over counters.
-/

/-- A path component, as in `std::path::Component`: only the distinction
between a current-directory component and a normal component matters to the
core (the depth computation filters `Component::CurDir`). -/
inductive Component : Type
| curDir : Component
| normal : String → Component
deriving DecidableEq

/-- A filesystem path, `std::path::PathBuf`, as its list of components. -/
abbrev FsPath := List Component

/-- Metadata snapshot (`fs::Metadata`) reduced to what the gating logic of
the core reads: whether the object is a directory (`stat.is_dir()`). -/
structure Stat where
  is_dir : Bool
deriving DecidableEq

/-- A resolved file entry. Modelled from the spec: `ResolvedEntry` is a
metadata snapshot for one filesystem object (path, directory flag) plus the
flag marking a directory rendered as a file (the fourth argument of
`File::with_stat` in `src/main.rs`; the `file` module is not part of the
sources). -/
structure File where
  stat : Stat
  path : FsPath
  dir_flag : Bool
deriving DecidableEq

/-- `File::with_stat(stat, path, parent, flag)` as called by `Exa::load`;
the parent argument is always `None` there. -/
def File.with_stat (stat : Stat) (path : FsPath) (_parent : Option Unit) (flag : Bool) : File :=
  ⟨stat, path, flag⟩

/-- Modelled from the spec: `File::is_directory` (from the missing `file`
module) is the directory flag of the metadata snapshot; the traversal
driver uses it to select which children are pushed onto the stack. -/
def File.is_directory (f : File) : Bool :=
  f.stat.is_dir

/-- The result enum defined inside `Exa::load`:
`enum StatResult { File(File), Path(PathBuf), Error }`. -/
inductive StatResult : Type
| file : File → StatResult
| path : FsPath → StatResult
| error : StatResult
deriving DecidableEq

/-- One user-visible output event: a blank separator line, a directory-name
header line, a `path: reason` error line, a plain message line, or a batch
of entries handed to the printer (`Exa::print`, with its optional directory
context represented by the path the directory was read from). -/
inductive OutLine : Type
| blank : OutLine
| header : FsPath → OutLine
| err : FsPath → String → OutLine
| msg : String → OutLine
| listing : Option FsPath → List File → OutLine
deriving DecidableEq

/-- Recursion options of the missing `options` module: modelled from the
spec, which requires a tree flag and a configurable maximum depth. -/
structure RecurseOptions where
  tree : Bool
  max_depth : Option Nat
deriving DecidableEq

/-- Modelled from the spec: `RecurseOptions::is_too_deep` from the missing
`options` module. The spec states children are pushed when the recomputed
depth "does not exceed the configured maximum", so the depth is too deep
exactly when it exceeds the configured maximum; with no configured maximum
nothing is too deep. -/
def RecurseOptions.is_too_deep (ro : RecurseOptions) (depth : Nat) : Bool :=
  match ro.max_depth with
  | none => false
  | some d => decide (d < depth)

/-- Modelled from the spec: the directory-action mode of the missing
`options` module, providing `is_tree`, `is_as_file` and `recurse_options`
as used by `Exa::load` and `Exa::print_dirs`: a directory may be rendered
as a single entry (`asFile`), listed without recursion (`list`), or
recursed into with `RecurseOptions`. -/
inductive DirAction : Type
| asFile : DirAction
| list : DirAction
| recurse : RecurseOptions → DirAction
deriving DecidableEq

/-- `DirAction::is_as_file`. -/
def DirAction.is_as_file : DirAction → Bool
| DirAction.asFile => true
| _ => false

/-- `DirAction::is_tree`: whether a flattened tree view is requested. -/
def DirAction.is_tree : DirAction → Bool
| DirAction.recurse ro => ro.tree
| _ => false

/-- `DirAction::recurse_options`: the recursion options when recursive
expansion is enabled. -/
def DirAction.recurse_options : DirAction → Option RecurseOptions
| DirAction.recurse ro => some ro
| _ => none

/-- The slice of `Options` the core reads: the directory action, and the
external in-place sort/filter transform `Options::transform_files`
(modelled from the spec as an opaque-to-the-core list transform). -/
structure Options where
  dir_action : DirAction
  transform_files : List File → List File

/-- The `Exa` struct of `src/main.rs`: the processed-count, the resolved
files bucket and the pending-directory stack (the options travel
separately in this embedding). -/
structure Exa where
  count : Nat
  dirs : List FsPath
  files : List File
deriving DecidableEq

/-- `Exa::new`. -/
def Exa.new : Exa :=
  ⟨0, [], []⟩

/-- The body of one producer thread of `Exa::load` (lines 106-125): probe
one target path with `fs::metadata`; a failure prints one `path: reason`
line and yields `StatResult::Error`; a non-directory yields a resolved
file; a directory in tree/dir-as-file mode yields a resolved file flagged
as a directory rendered as a file; otherwise the path becomes a pending
directory. The second component is the lines the producer prints. -/
def probe (metadata : FsPath → Except String Stat) (is_tree : Bool) (file : FsPath) :
    StatResult × List OutLine :=
  match metadata file with
  | Except.ok stat =>
    if !stat.is_dir then (StatResult.file (File.with_stat stat file none false), [])
    else if is_tree then (StatResult.file (File.with_stat stat file none true), [])
    else (StatResult.path file, [])
  | Except.error e => (StatResult.error, [OutLine.err file e])

/-- The consumer thread of `Exa::load` (lines 79-96): one loop iteration
per target, each receiving one `StatResult` and filing it into the files
bucket, the directory stack, or nowhere for an error, and incrementing
`count` once per received outcome. `results` is the arrival order of the
outcomes at the single aggregator. -/
def aggregate (results : List StatResult) (s : Exa) : Exa :=
  results.foldl
    (fun s result =>
      match result with
      | StatResult.file f => { s with files := s.files ++ [f], count := s.count + 1 }
      | StatResult.path p => { s with dirs := s.dirs ++ [p], count := s.count + 1 }
      | StatResult.error => { s with count := s.count + 1 })
    s

/-- `Exa::load` as observed after the scoped consumer joins: the producers
probe every target and the aggregator processes the outcomes in their
arrival order (`arrival`, a permutation of the targets when the schedule is
well formed). Returns the updated state and the error lines printed by the
producers. -/
def Exa.load (s : Exa) (metadata : FsPath → Except String Stat) (is_tree : Bool)
    (arrival : List FsPath) : Exa × List OutLine :=
  let results := arrival.map (probe metadata is_tree)
  (aggregate (results.map Prod.fst) s, (results.map Prod.snd).flatten)

/-- A directory handle as returned by `Dir::readdir` (the `dir` module is
not part of the sources): modelled from the spec, the ordered immediate
children of the directory. -/
structure Dir where
  contents : List File
deriving DecidableEq

/-- Modelled from the spec: `Dir::files` returns the directory's immediate
children (the Boolean argument of the real function selects git-aware
behaviour, irrelevant to the core). -/
def Dir.files (d : Dir) (_git : Bool) : List File :=
  d.contents

/-- The depth recomputed at line 165 of `src/main.rs`:
`dir_path.components().filter(|&c| c != Component::CurDir).count() + 1`. -/
def expandDepth (dir_path : FsPath) : Nat :=
  (dir_path.filter (fun c => decide (c ≠ Component.curDir))).length + 1

/-- The depth at which a path sits as an entry: its number of
non-current-directory components (the spec formula without the final
`+ 1`). -/
def entryDepth (p : FsPath) : Nat :=
  p.countP (fun c => decide (c ≠ Component.curDir))

/-- The paths pushed for one expanded directory, lines 167-169:
the children classified as directories, in reverse of the transformed
list's order. -/
def pushedDirs (files : List File) : List FsPath :=
  ((files.filter (fun f => f.is_directory)).reverse).map (fun f => f.path)

/-- Lines 164-171 of `src/main.rs`: the stack pushes performed after
expanding `dir_path` into the transformed child list `files`: only when
recursive expansion is enabled, the mode is not a flattened tree, and the
recomputed depth is not too deep. -/
def pushedChildren (opts : Options) (dir_path : FsPath) (files : List File) : List FsPath :=
  match opts.dir_action.recurse_options with
  | some recurse_opts =>
    if !recurse_opts.tree && !recurse_opts.is_too_deep (expandDepth dir_path) then
      pushedDirs files
    else []
  | none => []

/-- `Vec::pop`: remove and return the last element of the stack. -/
def popStack {α : Type} (l : List α) : Option (α × List α) :=
  match l.getLast? with
  | none => none
  | some x => some (x, l.dropLast)

/-- Pop the stack `n` times, returning the popped elements in pop order and
the remaining stack. -/
def popN {α : Type} : Nat → List α → List α × List α
| 0, s => ([], s)
| n + 1, s =>
  match popStack s with
  | none => ([], s)
  | some (x, r) =>
    let p := popN n r
    (x :: p.1, p.2)

/-- The body of one `Exa::print_dirs` loop iteration after the pop and the
gap print (lines 155-184): read the popped directory, transform its
children, push eligible child directories, print the header when more than
one entry has been processed, increment the processed count and hand the
batch to the printer; a read failure prints one `path: reason` line and
aborts the whole driver (`none`). The state passed in already has the
popped path removed from `dirs`. -/
def expandStep (readdir : FsPath → Except String Dir) (opts : Options) (s : Exa)
    (dir_path : FsPath) : List OutLine × Option Exa :=
  match readdir dir_path with
  | Except.ok dir =>
    let files := opts.transform_files (dir.files false)
    let hdr := if s.count > 1 then [OutLine.header dir_path] else []
    (hdr ++ [OutLine.listing (some dir_path) files],
      some { s with dirs := s.dirs ++ pushedChildren opts dir_path files,
                    count := s.count + 1 })
  | Except.error e => ([OutLine.err dir_path e], none)

/-- The `loop` of `Exa::print_dirs` (lines 140-185), with explicit fuel for
the shallow embedding (every claim quantifies over or fixes a sufficient
fuel): pop the top of the stack, print the separating blank line unless
this is the very first expansion, and run the expansion body; an expansion
failure returns from the whole driver. -/
def printDirsLoop (readdir : FsPath → Except String Dir) (opts : Options) :
    Nat → Bool → Exa → List OutLine × Exa
| 0, _, s => ([], s)
| fuel + 1, first, s =>
  match popStack s.dirs with
  | none => ([], s)
  | some (dir_path, rest) =>
    let gap : List OutLine := if first then [] else [OutLine.blank]
    match expandStep readdir opts { s with dirs := rest } dir_path with
    | (out, none) => (gap ++ out, { s with dirs := rest })
    | (out, some s') =>
      let r := printDirsLoop readdir opts fuel false s'
      (gap ++ out ++ r.1, r.2)

/-- `Exa::print_dirs`: the loop seeded with `first` true exactly when the
standalone-files list is empty (line 136). -/
def Exa.print_dirs (s : Exa) (readdir : FsPath → Except String Dir) (opts : Options)
    (fuel : Nat) : List OutLine × Exa :=
  printDirsLoop readdir opts fuel s.files.isEmpty s

/-- The stack entries added by one expansion of `dir_path` from state `s`
(the suffix `expandStep` appended to `s.dirs`); empty when the expansion
aborted. -/
def pushedInExpand (readdir : FsPath → Except String Dir) (opts : Options) (s : Exa)
    (dir_path : FsPath) : List FsPath :=
  match (expandStep readdir opts s dir_path).2 with
  | some s' => s'.dirs.drop s.dirs.length
  | none => []

/-- The directories actually expanded, in expansion order: the directory
contexts of the batches handed to the printer by the traversal driver. -/
def expandedDirs (out : List OutLine) : List FsPath :=
  out.filterMap
    (fun line =>
      match line with
      | OutLine.listing (some p) _ => some p
      | _ => none)

/-- `Exa::print_files` (lines 129-133): hand the standalone files to the
printer when there are any. -/
def Exa.print_files (s : Exa) : List OutLine :=
  if s.files.isEmpty then [] else [OutLine.listing none s.files]

/-- One complete successful run: `Exa::new`, `load`, `print_files`,
`print_dirs`, in the order `main` performs them, collecting every printed
line. -/
def runExa (metadata : FsPath → Except String Stat) (readdir : FsPath → Except String Dir)
    (opts : Options) (arrival : List FsPath) (fuel : Nat) : List OutLine × Exa :=
  let is_tree := opts.dir_action.is_tree || opts.dir_action.is_as_file
  let loaded := Exa.load Exa.new metadata is_tree arrival
  let d := Exa.print_dirs loaded.1 readdir opts fuel
  (loaded.2 ++ Exa.print_files loaded.1 ++ d.1, d.2)

/-- Modelled from the spec: the error value of `Options::getopts` (the
`options` module is not part of the sources), carrying a message and the
`error_code` used for `env::set_exit_status`. -/
structure GetoptsError where
  msg : String
  error_code : Nat

/-- `main` (lines 198-213): on a successful parse run the pipeline, with
`reorder` standing for the nondeterministic completion order of the probes;
on a parse error print the message and set the exit status. The second
component is the exit status set by the program (`none` when
`env::set_exit_status` is never called, i.e. the process exits 0). -/
def exaMain (metadata : FsPath → Except String Stat) (readdir : FsPath → Except String Dir)
    (parsed : Except GetoptsError (Options × List FsPath))
    (reorder : List FsPath → List FsPath) (fuel : Nat) : List OutLine × Option Nat :=
  match parsed with
  | Except.ok (options, paths) =>
    ((runExa metadata readdir options (reorder paths) fuel).1, none)
  | Except.error e => ([OutLine.msg e.msg], some e.error_code)

/-- Outcome classifiers for the aggregation accounting. -/
def statIsFile : StatResult → Bool
| StatResult.file _ => true
| _ => false

/-- Whether an outcome is a pending directory. -/
def statIsPath : StatResult → Bool
| StatResult.path _ => true
| _ => false

/-- Whether an outcome is a failure. -/
def statIsError : StatResult → Bool
| StatResult.error => true
| _ => false

/-- The pending-directory path of an outcome, when it is one. -/
def statPath : StatResult → Option FsPath
| StatResult.path p => some p
| _ => none

/-- The observable counters of the thread/channel protocol of `Exa::load`:
capacity tokens sent by the main thread on the `sync_channel` (line 103),
whether a token has been sent whose producer thread is not yet spawned
(the gap between lines 103 and 106), producer threads that have sent their
result (line 108's send completing), capacity tokens received by the
consumer (line 83) and results received by the consumer (line 86). -/
structure PoolState where
  sent : Nat
  pendingSpawn : Bool
  completed : Nat
  recvTokens : Nat
  recvResults : Nat
deriving DecidableEq

/-- Producer threads spawned so far: every sent token is followed by its
spawn before the next send. -/
def PoolState.spawned (s : PoolState) : Nat :=
  s.sent - (if s.pendingSpawn then 1 else 0)

/-- Probes in flight: producer threads spawned whose result has not yet
been sent. -/
def PoolState.inFlight (s : PoolState) : Nat :=
  s.spawned - s.completed

/-- The protocol state before `Exa::load` starts. -/
def initPool : PoolState :=
  ⟨0, false, 0, 0, 0⟩

/-- One interleaving step of the `Exa::load` protocol with `N` targets and
a `sync_channel` of capacity `C`:
the main thread sends a capacity token (blocked while `C` tokens are
buffered, i.e. while `sent - recvTokens = C`) and then spawns the producer;
a spawned producer completes by sending its result on the unbounded results
channel; the consumer alternately receives a capacity token (blocked while
none is buffered) and then a result (blocked while none is queued), for `N`
iterations. -/
inductive PoolStep (N C : Nat) : PoolState → PoolState → Prop
| sendToken (s : PoolState) (h1 : s.pendingSpawn = false) (h2 : s.sent < N)
    (h3 : s.sent < s.recvTokens + C) :
    PoolStep N C s ⟨s.sent + 1, true, s.completed, s.recvTokens, s.recvResults⟩
| spawn (s : PoolState) (h : s.pendingSpawn = true) :
    PoolStep N C s ⟨s.sent, false, s.completed, s.recvTokens, s.recvResults⟩
| complete (s : PoolState) (h : s.completed < s.spawned) :
    PoolStep N C s ⟨s.sent, s.pendingSpawn, s.completed + 1, s.recvTokens, s.recvResults⟩
| recvToken (s : PoolState) (h1 : s.recvTokens = s.recvResults) (h2 : s.recvTokens < N)
    (h3 : s.recvTokens < s.sent) :
    PoolStep N C s ⟨s.sent, s.pendingSpawn, s.completed, s.recvTokens + 1, s.recvResults⟩
| recvResult (s : PoolState) (h1 : s.recvResults < s.recvTokens)
    (h2 : s.recvResults < s.completed) :
    PoolStep N C s ⟨s.sent, s.pendingSpawn, s.completed, s.recvTokens, s.recvResults + 1⟩

/-- States reachable by the `Exa::load` protocol from the initial state. -/
inductive PoolReach (N C : Nat) : PoolState → Prop
| init : PoolReach N C initPool
| step {s t : PoolState} : PoolReach N C s → PoolStep N C s t → PoolReach N C t

/-- Inductive invariant of the protocol counters. -/
def PoolInv (N C : Nat) (s : PoolState) : Prop :=
  s.sent ≤ N ∧
  s.recvTokens ≤ s.sent ∧
  s.sent ≤ s.recvTokens + C ∧
  s.completed + (if s.pendingSpawn then 1 else 0) ≤ s.sent ∧
  s.recvResults ≤ s.completed ∧
  s.recvResults ≤ s.recvTokens ∧
  s.recvTokens ≤ s.recvResults + 1 ∧
  s.recvTokens ≤ N

/-- The probe contract exactly as the spec states it: the second, spec-side
definition for the refinement claim about probe classification, phrased
from the spec sentences (failure reported with one error line and no entry;
existing non-directory resolved as a file; directory in tree-view or
directory-as-file mode resolved as a file flagged as a directory rendered
as a file; otherwise a pending directory). -/
def probeSpec (metadata : FsPath → Except String Stat) (dir_action : DirAction)
    (t : FsPath) : StatResult × List OutLine :=
  match metadata t with
  | Except.error e => (StatResult.error, [OutLine.err t e])
  | Except.ok st =>
    if st.is_dir = false then (StatResult.file ⟨st, t, false⟩, [])
    else if dir_action.is_tree = true ∨ dir_action.is_as_file = true then
      (StatResult.file ⟨st, t, true⟩, [])
    else (StatResult.path t, [])

/-- Concrete fixture: the path `a`. -/
def pdA : FsPath := [Component.normal "a"]

/-- Concrete fixture: the path `b`. -/
def pdB : FsPath := [Component.normal "b"]

/-- Concrete fixture: the path `d`. -/
def pdD : FsPath := [Component.normal "d"]

/-- Concrete fixture: the path `x`. -/
def pdX : FsPath := [Component.normal "x"]

/-- Concrete fixture: the path `a/b`. -/
def qAB : FsPath := [Component.normal "a", Component.normal "b"]

/-- Concrete fixture: an identity sort/filter transform. -/
def idTransform : List File → List File := fun fs => fs

/-- Concrete fixture: options listing directories without recursion. -/
def optsList : Options := ⟨DirAction.list, idTransform⟩

/-- Concrete fixture: options recursing with maximum depth 2, no tree. -/
def optsRecurse2 : Options := ⟨DirAction.recurse ⟨false, some 2⟩, idTransform⟩

/-- Concrete fixture: directory metadata. -/
def statDir : Stat := ⟨true⟩

/-- Concrete fixture: a filesystem where every path is a directory. -/
def mdAllDirs : FsPath → Except String Stat := fun _ => Except.ok statDir

/-- Concrete fixture: a filesystem where `x` is missing and everything else
is a directory. -/
def mdMissingX : FsPath → Except String Stat :=
  fun p => if p = pdX then Except.error "nf" else Except.ok statDir

/-- Concrete fixture: an empty directory. -/
def dirEmpty : Dir := ⟨[]⟩

/-- Concrete fixture: a directory reader succeeding with empty contents. -/
def rdEmptyDir : FsPath → Except String Dir := fun _ => Except.ok dirEmpty

/-- Concrete fixture: a directory reader failing everywhere. -/
def rdDenied : FsPath → Except String Dir := fun _ => Except.error "denied"

/-- Concrete fixture: the directory entry `a/b`, itself a directory. -/
def fileAB : File := ⟨statDir, qAB, false⟩

/-- Concrete fixture: a directory whose only child is `a/b`. -/
def dirWithAB : Dir := ⟨[fileAB]⟩

/-- Concrete fixture: a directory reader returning the child `a/b`
everywhere. -/
def rdC4 : FsPath → Except String Dir := fun _ => Except.ok dirWithAB

/-- Concrete fixture: the pool protocol state with nine producer threads
spawned, none completed and one capacity token already taken by the
consumer. -/
def sC9 : PoolState := ⟨9, false, 0, 1, 0⟩

theorem poolInv_init (N C : Nat) : PoolInv N C initPool := by
  simp [PoolInv, initPool]

theorem poolInv_step {N C : Nat} {s t : PoolState} (hs : PoolStep N C s t)
    (hinv : PoolInv N C s) : PoolInv N C t := by
  obtain ⟨i1, i2, i3, i4, i5, i6, i7, i8⟩ := hinv
  cases hs with
  | sendToken h1 h2 h3 =>
    dsimp only [PoolInv] at *
    rw [h1] at i4
    simp at i4 ⊢
    omega
  | spawn h =>
    dsimp only [PoolInv] at *
    rw [h] at i4
    simp at i4 ⊢
    omega
  | complete h =>
    dsimp only [PoolInv, PoolState.spawned] at *
    cases hb : s.pendingSpawn <;> simp [hb] at * <;> omega
  | recvToken h1 h2 h3 =>
    dsimp only [PoolInv] at *
    cases hb : s.pendingSpawn <;> simp [hb] at * <;> omega
  | recvResult h1 h2 =>
    dsimp only [PoolInv] at *
    cases hb : s.pendingSpawn <;> simp [hb] at * <;> omega

theorem poolReach_inv {N C : Nat} {s : PoolState} (h : PoolReach N C s) : PoolInv N C s := by
  induction h with
  | init => exact poolInv_init N C
  | step _ hs ih => exact poolInv_step hs ih

theorem popStack_concat {α : Type} (l : List α) (x : α) :
    popStack (l ++ [x]) = some (x, l) := by
  simp [popStack, List.getLast?_concat, List.dropLast_concat]

theorem popStack_nil {α : Type} : popStack ([] : List α) = none := rfl

theorem popStack_of_ne_nil {α : Type} {l : List α} (h : l ≠ []) :
    popStack l = some (l.getLast h, l.dropLast) := by
  conv_lhs => rw [← List.dropLast_append_getLast h]
  rw [popStack_concat]

theorem popStack_eq_none_iff {α : Type} {l : List α} : popStack l = none ↔ l = [] := by
  induction l using List.reverseRecOn with
  | nil => simp [popStack_nil]
  | append_singleton s x _ => simp [popStack_concat]

theorem popStack_eq_some {α : Type} {l r : List α} {x : α}
    (h : popStack l = some (x, r)) : l = r ++ [x] := by
  induction l using List.reverseRecOn with
  | nil => simp [popStack_nil] at h
  | append_singleton s y _ =>
    rw [popStack_concat] at h
    obtain ⟨rfl, rfl⟩ : y = x ∧ s = r := by
      constructor <;> { injection h with h'; cases h'; rfl }
    rfl

theorem popN_append_reverse {α : Type} (l rest : List α) :
    popN l.length (rest ++ l.reverse) = (l, rest) := by
  induction l generalizing rest with
  | nil => simp [popN]
  | cons x xs ih =>
    have harr : rest ++ (x :: xs).reverse = (rest ++ xs.reverse) ++ [x] := by
      simp [List.reverse_cons]
    rw [List.length_cons, harr]
    simp only [popN, popStack_concat]
    rw [ih]

theorem aggregate_count (outs : List StatResult) (s : Exa) :
    (aggregate outs s).count = s.count + outs.length := by
  induction outs generalizing s with
  | nil => simp [aggregate]
  | cons r rs ih =>
    cases r <;> simp [aggregate, List.foldl_cons] at * <;> rw [ih] <;> simp <;> omega

theorem aggregate_files_eq (outs : List StatResult) (s : Exa) :
    (aggregate outs s).files = s.files ++ outs.filterMap
      (fun r => match r with | StatResult.file f => some f | _ => none) := by
  induction outs generalizing s with
  | nil => simp [aggregate]
  | cons r rs ih =>
    cases r <;> simp [aggregate, List.foldl_cons] at * <;> rw [ih] <;> simp

theorem aggregate_dirs_eq (outs : List StatResult) (s : Exa) :
    (aggregate outs s).dirs = s.dirs ++ outs.filterMap statPath := by
  induction outs generalizing s with
  | nil => simp [aggregate]
  | cons r rs ih =>
    cases r <;> simp [aggregate, List.foldl_cons, statPath] at * <;> rw [ih] <;>
      simp [statPath]

theorem statResult_threeway (outs : List StatResult) :
    outs.countP statIsFile + outs.countP statIsPath + outs.countP statIsError
      = outs.length := by
  induction outs with
  | nil => simp
  | cons r rs ih =>
    cases r <;> simp [List.countP_cons, statIsFile, statIsPath, statIsError] <;> omega

theorem aggregate_files_len (outs : List StatResult) (s : Exa) :
    (aggregate outs s).files.length = s.files.length + outs.countP statIsFile := by
  induction outs generalizing s with
  | nil => simp [aggregate]
  | cons r rs ih =>
    cases r <;>
      simp [aggregate, List.foldl_cons, List.countP_cons, statIsFile] at * <;>
      rw [ih] <;> simp <;> omega

theorem aggregate_dirs_len (outs : List StatResult) (s : Exa) :
    (aggregate outs s).dirs.length = s.dirs.length + outs.countP statIsPath := by
  induction outs generalizing s with
  | nil => simp [aggregate]
  | cons r rs ih =>
    cases r <;>
      simp [aggregate, List.foldl_cons, List.countP_cons, statIsPath] at * <;>
      rw [ih] <;> simp <;> omega

theorem expandedDirs_append (a b : List OutLine) :
    expandedDirs (a ++ b) = expandedDirs a ++ expandedDirs b := by
  simp [expandedDirs, List.filterMap_append]

theorem expandedDirs_gap (b : Bool) :
    expandedDirs (if b then [] else [OutLine.blank]) = [] := by
  cases b <;> simp [expandedDirs]

theorem expandedDirs_hdr (c : Prop) [Decidable c] (p : FsPath) :
    expandedDirs (if c then [OutLine.header p] else []) = [] := by
  split <;> simp [expandedDirs]

theorem expandedDirs_probe_snd (metadata : FsPath → Except String Stat) (b : Bool)
    (t : FsPath) : expandedDirs (probe metadata b t).2 = [] := by
  rcases h : metadata t with e | st
  · simp [probe, h, expandedDirs]
  · simp only [probe, h]
    split
    · simp [expandedDirs]
    · split <;> simp [expandedDirs]

theorem printDirsLoop_no_recursion (readdir : FsPath → Except String Dir) (opts : Options)
    (hrec : opts.dir_action.recurse_options = none)
    (hok : ∀ p, ∃ dir, readdir p = Except.ok dir) :
    ∀ (fuel : Nat) (first : Bool) (s : Exa), s.dirs.length ≤ fuel →
      expandedDirs (printDirsLoop readdir opts fuel first s).1 = s.dirs.reverse := by
  intro fuel
  induction fuel with
  | zero =>
    intro first s hlen
    have hnil : s.dirs = [] := List.eq_nil_of_length_eq_zero (Nat.le_zero.mp hlen)
    simp only [printDirsLoop, hnil, List.reverse_nil]
    simp [expandedDirs]
  | succ fuel ih =>
    intro first s hlen
    rcases hpop : popStack s.dirs with _ | ⟨d, rest⟩
    · have hnil : s.dirs = [] := popStack_eq_none_iff.mp hpop
      simp only [printDirsLoop, hpop]
      simp [hnil, expandedDirs]
    · obtain ⟨dir, hokd⟩ := hok d
      have hdirs : s.dirs = rest ++ [d] := popStack_eq_some hpop
      have hrest : rest.length ≤ fuel := by
        have := congrArg List.length hdirs
        simp at this
        omega
      have hIH := ih false { s with dirs := rest, count := s.count + 1 } hrest
      simp only [printDirsLoop, hpop]
      simp only [expandStep, hokd, pushedChildren, hrec, List.append_nil]
      simp only [expandedDirs_append, expandedDirs_gap, expandedDirs_hdr]
      simp only at hIH
      rw [hdirs, hIH]
      simp [expandedDirs]

/-- C2: for every target path the probe classifies the outcome exactly as
the spec states: a failed metadata lookup is reported as a Failure with one
error line and adds no entry to either bucket (though it still advances the
processed count); an existing non-directory becomes a resolved file; an
existing directory in tree-view or directory-as-file mode becomes a
resolved file flagged as a directory rendered as a file; any other
directory becomes a pending directory. -/
theorem c2_probe_classification (metadata : FsPath → Except String Stat)
    (dir_action : DirAction) (t : FsPath) :
    probe metadata (dir_action.is_tree || dir_action.is_as_file) t
      = probeSpec metadata dir_action t
    ∧ (∀ s : Exa, (aggregate [StatResult.error] s).files = s.files
        ∧ (aggregate [StatResult.error] s).dirs = s.dirs
        ∧ (aggregate [StatResult.error] s).count = s.count + 1) := by
  constructor
  · rcases h : metadata t with e | st
    · simp [probe, probeSpec, h]
    · cases hd : st.is_dir
      · simp [probe, probeSpec, h, hd, File.with_stat]
      · cases ht : dir_action.is_tree <;> cases ha : dir_action.is_as_file <;>
          simp [probe, probeSpec, h, hd, ht, ha, File.with_stat]
  · intro s
    simp [aggregate]

/-- C3: the traversal driver pushes an expanded directory's child
directories in reverse of their display order (`pushedDirs` reverses the
filtered transformed list), so popping the stack that many times yields
exactly the child directories in display order and leaves the rest of the
stack untouched: last-pushed-is-first-popped equals
first-desired-to-display. -/
theorem c3_stack_push_pop_order (rest : List FsPath) (children : List File) :
    pushedDirs children
        = ((children.filter (fun f => f.is_directory)).map (fun f => f.path)).reverse
    ∧ popN (pushedDirs children).length (rest ++ pushedDirs children)
        = ((children.filter (fun f => f.is_directory)).map (fun f => f.path), rest) := by
  have hrev : pushedDirs children
      = ((children.filter (fun f => f.is_directory)).map (fun f => f.path)).reverse := by
    simp [pushedDirs, List.map_reverse]
  refine ⟨hrev, ?_⟩
  rw [hrev, List.length_reverse]
  exact popN_append_reverse _ rest

/-- C5: the depth of a directory being expanded is recomputed purely from
its path: it equals the number of non-current-directory components plus
one, and the stack entries an expansion pushes do not depend on the driver
state it is expanded from, so expanding the same directory path from two
different entry points makes the same depth-gated decision. -/
theorem c5_depth_path_based (readdir : FsPath → Except String Dir) (opts : Options)
    (s1 s2 : Exa) (p : FsPath) :
    expandDepth p = entryDepth p + 1
    ∧ pushedInExpand readdir opts s1 p = pushedInExpand readdir opts s2 p := by
  constructor
  · simp [expandDepth, entryDepth, List.countP_eq_length_filter]
  · rcases h : readdir p with e | dir
    · simp [pushedInExpand, expandStep, h]
    · simp [pushedInExpand, expandStep, h, List.drop_left]

/-- C1: for any list of N targets and any arrival order of the probe
outcomes at the single aggregator (a permutation of the probed targets),
the aggregator processes exactly N outcomes (`count` ends at N), and the
number of resolved files plus pending directories plus failure outcomes
equals N, a failed probe counting like any other outcome; moreover the
load protocol can always take a step until all N outcomes are received, so
resolution never deadlocks. -/
theorem c1_resolver_accounting (metadata : FsPath → Except String Stat) (is_tree : Bool)
    (targets arrival : List FsPath) (hperm : arrival.Perm targets) :
    ((aggregate ((arrival.map (probe metadata is_tree)).map Prod.fst) Exa.new).count
        = targets.length
      ∧ (aggregate ((arrival.map (probe metadata is_tree)).map Prod.fst) Exa.new).files.length
          + (aggregate ((arrival.map (probe metadata is_tree)).map Prod.fst) Exa.new).dirs.length
          + ((arrival.map (probe metadata is_tree)).map Prod.fst).countP statIsError
        = targets.length)
    ∧ (∀ (N C : Nat) (u : PoolState), 1 ≤ C → PoolReach N C u → u.recvResults < N →
        ∃ v, PoolStep N C u v) := by
  have hlen : ((arrival.map (probe metadata is_tree)).map Prod.fst).length = targets.length := by
    simp [hperm.length_eq]
  constructor
  · constructor
    · rw [aggregate_count]
      simp [Exa.new]
      exact hperm.length_eq
    · rw [aggregate_files_len, aggregate_dirs_len]
      have h3 := statResult_threeway ((arrival.map (probe metadata is_tree)).map Prod.fst)
      simp [Exa.new] at *
      omega
  · intro N C u hC hreach hlt
    obtain ⟨i1, i2, i3, i4, i5, i6, i7, i8⟩ := poolReach_inv hreach
    cases hb : u.pendingSpawn
    · by_cases hcs : u.completed < u.spawned
      · exact ⟨_, PoolStep.complete u hcs⟩
      · have hsp : u.spawned = u.sent := by
          simp [PoolState.spawned, hb]
        rw [hb] at i4
        simp at i4
        have hce : u.completed = u.sent := by
          rw [hsp] at hcs
          omega
        by_cases htr : u.recvTokens = u.recvResults
        · by_cases hts : u.recvTokens < u.sent
          · exact ⟨_, PoolStep.recvToken u htr (by omega) hts⟩
          · exact ⟨_, PoolStep.sendToken u hb (by omega) (by omega)⟩
        · exact ⟨_, PoolStep.recvResult u (by omega) (by omega)⟩
    · exact ⟨_, PoolStep.spawn u hb⟩

/-- C4: after expanding a directory, child directories are pushed onto the
stack precisely when recursive expansion is enabled, tree/flattened mode is
off and the recomputed depth is not too deep; with configured maximum depth
D (so that being too deep means exceeding D) every pushed child sits at
entry depth at most D, given that the children of a directory sit one
non-current-directory component deeper than it; and the emitted listing
always contains the full transformed child list, so a too-deep directory is
still listed as an entry. -/
theorem c4_push_conditions (opts : Options) (p : FsPath) (files : List File)
    (q : FsPath) (ro : RecurseOptions) (D : Nat) :
    (q ∈ pushedChildren opts p files ↔
      ∃ ro2, opts.dir_action.recurse_options = some ro2 ∧ ro2.tree = false
        ∧ ro2.is_too_deep (expandDepth p) = false ∧ q ∈ pushedDirs files)
    ∧ (opts.dir_action.recurse_options = some ro → ro.max_depth = some D →
        (∀ f ∈ files, entryDepth f.path = entryDepth p + 1) →
        q ∈ pushedChildren opts p files → entryDepth q ≤ D)
    ∧ (∀ (readdir : FsPath → Except String Dir) (s : Exa) (dir : Dir),
        readdir p = Except.ok dir →
        OutLine.listing (some p) (opts.transform_files (dir.files false))
          ∈ (expandStep readdir opts s p).1) := by
  refine ⟨?_, ?_, ?_⟩
  · rcases hro : opts.dir_action.recurse_options with _ | ro2
    · simp [pushedChildren, hro]
    · simp only [pushedChildren, hro]
      by_cases hc : (!ro2.tree && !ro2.is_too_deep (expandDepth p)) = true
      · rw [if_pos hc]
        simp only [Bool.and_eq_true, Bool.not_eq_true'] at hc
        constructor
        · intro hq
          exact ⟨ro2, rfl, hc.1, hc.2, hq⟩
        · rintro ⟨ro3, _, _, _, hq⟩
          exact hq
      · rw [if_neg hc]
        simp only [Bool.and_eq_true, Bool.not_eq_true'] at hc
        constructor
        · intro hq
          simp at hq
        · rintro ⟨ro3, heq, ht, hd, _⟩
          injection heq with heq2
          subst heq2
          exact absurd ⟨ht, hd⟩ hc
  · intro hro hD hdepth hq
    simp only [pushedChildren, hro] at hq
    by_cases hc : (!ro.tree && !ro.is_too_deep (expandDepth p)) = true
    · rw [if_pos hc] at hq
      simp only [Bool.and_eq_true, Bool.not_eq_true'] at hc
      have hdeep := hc.2
      simp only [RecurseOptions.is_too_deep, hD, decide_eq_false_iff_not, not_lt] at hdeep
      simp only [pushedDirs, List.mem_map, List.mem_reverse, List.mem_filter] at hq
      obtain ⟨f, ⟨hf, _⟩, rfl⟩ := hq
      have hfd := hdepth f hf
      have hED : expandDepth p = entryDepth p + 1 := by
        simp [expandDepth, entryDepth, List.countP_eq_length_filter]
      omega
    · rw [if_neg hc] at hq
      simp at hq
  · intro readdir s dir hok
    simp only [expandStep, hok]
    apply List.mem_append_right
    simp

/-- Witness for C4 at a concrete recursing configuration of maximum depth
two, expanding `a` whose only child is the directory `a/b`. -/
theorem c4_push_conditions_witness :
    qAB ∈ pushedChildren optsRecurse2 pdA [fileAB]
    ∧ entryDepth qAB ≤ 2
    ∧ OutLine.listing (some pdA) (optsRecurse2.transform_files (dirWithAB.files false))
        ∈ (expandStep rdC4 optsRecurse2 Exa.new pdA).1 := by
  have h := c4_push_conditions optsRecurse2 pdA [fileAB] qAB ⟨false, some 2⟩ 2
  refine ⟨?_, ?_, ?_⟩
  · exact h.1.mpr ⟨⟨false, some 2⟩, rfl, rfl, by decide, by decide⟩
  · exact h.2.1 rfl rfl (by decide)
      (h.1.mpr ⟨⟨false, some 2⟩, rfl, rfl, by decide, by decide⟩)
  · exact h.2.2 rdC4 Exa.new dirWithAB rfl

/-- C6 (amended): a directory-read error during expansion prints exactly
one path-reason line (after the usual separator), aborts the entire
traversal driver with the remaining stack left unexpanded, and output
printed before it remains in place; however the driver surfaces no error
value: `main` sets an exit status only on a command-line parsing error, so
a run whose parse succeeded always leaves the exit status unset (process
exit 0) even when a directory read failed. -/
theorem c6_dir_error_aborts (readdir : FsPath → Except String Dir) (opts : Options)
    (fuel : Nat) (first : Bool) (s : Exa) (d : FsPath) (rest : List FsPath) (e : String)
    (metadata : FsPath → Except String Stat) (opts2 : Options) (paths : List FsPath)
    (reorder : List FsPath → List FsPath) (fl : Nat)
    (hpop : popStack s.dirs = some (d, rest)) (herr : readdir d = Except.error e) :
    printDirsLoop readdir opts (fuel + 1) first s
      = ((if first then [] else [OutLine.blank]) ++ [OutLine.err d e],
          { s with dirs := rest })
    ∧ (exaMain metadata readdir (Except.ok (opts2, paths)) reorder fl).2 = none := by
  constructor
  · simp only [printDirsLoop, hpop]
    simp only [expandStep, herr]
  · rfl

/-- C6 counterexample: a concrete run whose directory read fails with a
permission error: the error line is printed and the driver halts, but the
program never sets an exit status (the process exits 0), contradicting the
claim that the fatal failure is surfaced so that a non-zero status is
returned upstream. -/
theorem c6_status_counterexample :
    exaMain mdAllDirs rdDenied (Except.ok (optsList, [pdD])) (fun l => l) 5
      = ([OutLine.err pdD "denied"], none) := by
  decide

/-- Witness for C6 at a concrete state whose only pending directory fails
to read. -/
theorem c6_dir_error_aborts_witness :
    printDirsLoop rdDenied optsList 3 true ⟨1, [pdD], []⟩
      = ([OutLine.err pdD "denied"], ⟨1, [], []⟩)
    ∧ (exaMain mdAllDirs rdDenied (Except.ok (optsList, [pdD])) (fun l => l) 2).2 = none := by
  have h := c6_dir_error_aborts rdDenied optsList 2 true ⟨1, [pdD], []⟩ pdD [] "denied"
    mdAllDirs optsList [pdD] (fun l => l) 2 (by decide) rfl
  exact ⟨h.1.trans (by decide), h.2⟩

/-- C7 (amended): a directory-name header is printed before an expanded
directory's listing exactly when the processed count exceeds one at that
moment; the count is a monotonically increasing counter incremented once
per probe outcome processed by the aggregator — failed probes included —
and once per expanded directory, not a counter of entries handed to the
printer. -/
theorem c7_header_counter (readdir : FsPath → Except String Dir) (opts : Options)
    (s : Exa) (p : FsPath) (dir : Dir) (s2 : Exa) (outs : List StatResult) (init : Exa)
    (hok : readdir p = Except.ok dir)
    (hsnd : (expandStep readdir opts s p).2 = some s2) :
    (OutLine.header p ∈ (expandStep readdir opts s p).1 ↔ 1 < s.count)
    ∧ s2.count = s.count + 1
    ∧ (aggregate outs init).count = init.count + outs.length := by
  refine ⟨?_, ?_, aggregate_count outs init⟩
  · by_cases hc : 1 < s.count
    · simp [expandStep, hok, hc]
    · simp [expandStep, hok, hc]
  · simp only [expandStep, hok, Option.some.injEq] at hsnd
    rw [← hsnd]

/-- C7 counterexample: a run over the targets `x` (missing) and `d` (a
directory): when `d` is expanded not a single entry has been handed to the
printer (the output up to that point is one error line), yet the
directory-name header for `d` is printed, because the counter also counted
the failed probe outcome; under the claim's counter (entries handed to the
printer) the header would be absent. -/
theorem c7_header_counterexample :
    (runExa mdMissingX rdEmptyDir optsList [pdX, pdD] 5).1
      = [OutLine.err pdX "nf", OutLine.header pdD, OutLine.listing (some pdD) []] := by
  decide

/-- Witness for C7 at a concrete expansion from processed count two. -/
theorem c7_header_counter_witness :
    OutLine.header pdD ∈ (expandStep rdEmptyDir optsList ⟨2, [], []⟩ pdD).1
    ∧ (⟨3, [], []⟩ : Exa).count = 2 + 1
    ∧ (aggregate [StatResult.error] Exa.new).count = Exa.new.count + 1 := by
  have h := c7_header_counter rdEmptyDir optsList ⟨2, [], []⟩ pdD dirEmpty ⟨3, [], []⟩
    [StatResult.error] Exa.new rfl (by decide)
  exact ⟨h.1.mpr (by decide), h.2.1, h.2.2⟩

/-- C8: whether the first popped directory is preceded by a blank separator
line is determined solely by whether the standalone-files list was empty:
with no standalone files the driver's output starts with no blank line,
with standalone files the first expansion is preceded by a blank line, and
every later iteration of the loop (which always runs with the first-flag
cleared) starts with a blank line whenever another directory is pending. -/
theorem c8_blank_separator (readdir : FsPath → Except String Dir) (opts : Options)
    (fuel : Nat) (s t : Exa) :
    (s.files.isEmpty = true →
      (Exa.print_dirs s readdir opts fuel).1.head? ≠ some OutLine.blank)
    ∧ (s.files.isEmpty = false → s.dirs ≠ [] →
        (Exa.print_dirs s readdir opts (fuel + 1)).1.head? = some OutLine.blank)
    ∧ (t.dirs ≠ [] →
        (printDirsLoop readdir opts (fuel + 1) false t).1.head? = some OutLine.blank) := by
  refine ⟨?_, ?_, ?_⟩
  · intro hemp
    rw [Exa.print_dirs, hemp]
    cases fuel with
    | zero => simp [printDirsLoop]
    | succ n =>
      rcases hpop : popStack s.dirs with _ | ⟨d, rest⟩
      · simp [printDirsLoop, hpop]
      · simp only [printDirsLoop, hpop]
        rcases hrd : readdir d with e | dir
        · simp [expandStep, hrd]
        · simp only [expandStep, hrd]
          by_cases hc : 1 < s.count <;> simp [hc]
  · intro hemp hne
    rw [Exa.print_dirs, hemp]
    obtain ⟨d, rest, hpop⟩ : ∃ d rest, popStack s.dirs = some (d, rest) := by
      rcases hl : popStack s.dirs with _ | ⟨d, rest⟩
      · exact absurd (popStack_eq_none_iff.mp hl) hne
      · exact ⟨d, rest, rfl⟩
    simp only [printDirsLoop, hpop]
    rcases hrd : readdir d with e | dir
    · simp [expandStep, hrd]
    · simp [expandStep, hrd]
  · intro hne
    obtain ⟨d, rest, hpop⟩ : ∃ d rest, popStack t.dirs = some (d, rest) := by
      rcases hl : popStack t.dirs with _ | ⟨d, rest⟩
      · exact absurd (popStack_eq_none_iff.mp hl) hne
      · exact ⟨d, rest, rfl⟩
    simp only [printDirsLoop, hpop]
    rcases hrd : readdir d with e | dir
    · simp [expandStep, hrd]
    · simp [expandStep, hrd]

/-- Witness for C8 at concrete states with and without standalone files. -/
theorem c8_blank_separator_witness :
    (Exa.print_dirs ⟨1, [pdD], []⟩ rdEmptyDir optsList 2).1.head? ≠ some OutLine.blank
    ∧ (Exa.print_dirs ⟨1, [pdD], [fileAB]⟩ rdEmptyDir optsList 3).1.head?
        = some OutLine.blank
    ∧ (printDirsLoop rdEmptyDir optsList 3 false ⟨1, [pdD], []⟩).1.head?
        = some OutLine.blank := by
  have h1 := c8_blank_separator rdEmptyDir optsList 2 ⟨1, [pdD], []⟩ ⟨1, [pdD], []⟩
  have h2 := c8_blank_separator rdEmptyDir optsList 2 ⟨1, [pdD], [fileAB]⟩ ⟨1, [pdD], []⟩
  exact ⟨h1.1 rfl, h2.2.1 rfl (by decide), h1.2.2 (by decide)⟩

theorem expandedDirs_errOut (metadata : FsPath → Except String Stat) (b : Bool)
    (arrival : List FsPath) :
    expandedDirs (((arrival.map (probe metadata b)).map Prod.snd).flatten) = [] := by
  induction arrival with
  | nil => simp [expandedDirs]
  | cons t ts ih =>
    simp only [List.map_cons, List.flatten_cons]
    rw [expandedDirs_append, expandedDirs_probe_snd, ih]
    rfl

theorem expandedDirs_print_files (s : Exa) : expandedDirs (Exa.print_files s) = [] := by
  rw [Exa.print_files]
  split <;> simp [expandedDirs]

/-- C10: the traversal driver consumes the pending-directory bucket by
popping from its end (`Vec::pop` removes the last element), so over a full
run with recursion disabled and all directory reads succeeding, the
top-level directories collected during resolution are expanded and printed
in exactly the reverse of the order in which their outcomes arrived at the
aggregator. -/
theorem c10_reverse_expansion (metadata : FsPath → Except String Stat)
    (readdir : FsPath → Except String Dir) (opts : Options) (arrival : List FsPath)
    (fuel : Nat) (l : List FsPath) (x : FsPath)
    (hrec : opts.dir_action.recurse_options = none)
    (hok : ∀ p, ∃ dir, readdir p = Except.ok dir)
    (hfuel : arrival.length ≤ fuel) :
    popStack (l ++ [x]) = some (x, l)
    ∧ expandedDirs (runExa metadata readdir opts arrival fuel).1
        = (((arrival.map (probe metadata
              (opts.dir_action.is_tree || opts.dir_action.is_as_file))).map
                Prod.fst).filterMap statPath).reverse := by
  refine ⟨popStack_concat l x, ?_⟩
  simp only [runExa, Exa.load]
  rw [expandedDirs_append, expandedDirs_append, expandedDirs_errOut,
    expandedDirs_print_files]
  simp only [List.nil_append, List.append_nil]
  rw [Exa.print_dirs]
  have hdirs : (aggregate ((arrival.map (probe metadata
      (opts.dir_action.is_tree || opts.dir_action.is_as_file))).map Prod.fst) Exa.new).dirs
      = ((arrival.map (probe metadata
          (opts.dir_action.is_tree || opts.dir_action.is_as_file))).map
            Prod.fst).filterMap statPath := by
    rw [aggregate_dirs_eq]
    simp [Exa.new]
  have hlen : (aggregate ((arrival.map (probe metadata
      (opts.dir_action.is_tree || opts.dir_action.is_as_file))).map Prod.fst) Exa.new).dirs.length
      ≤ fuel := by
    rw [hdirs]
    have h1 := List.length_filterMap_le statPath
      ((arrival.map (probe metadata
        (opts.dir_action.is_tree || opts.dir_action.is_as_file))).map Prod.fst)
    have h2 : ((arrival.map (probe metadata
        (opts.dir_action.is_tree || opts.dir_action.is_as_file))).map Prod.fst).length
        = arrival.length := by
      simp
    omega
  rw [printDirsLoop_no_recursion readdir opts hrec hok fuel _ _ hlen, hdirs]

/-- Witness for C10 at a concrete run over two directory targets. -/
theorem c10_reverse_expansion_witness :
    popStack ([pdA] ++ [pdB]) = some (pdB, [pdA])
    ∧ expandedDirs (runExa mdAllDirs rdEmptyDir optsList [pdA, pdB] 5).1 = [pdB, pdA] := by
  have h := c10_reverse_expansion mdAllDirs rdEmptyDir optsList [pdA, pdB] 5 [pdA] pdB
    rfl (fun p => ⟨dirEmpty, rfl⟩) (by decide)
  exact ⟨h.1, h.2.trans (by decide)⟩

/-- C9 (amended): for the load protocol with concurrency ceiling
C = 8 × the hardware-parallelism hint, at no reachable instant are more
than C + 1 probes in flight — one more than the claimed C, because the
aggregator frees a capacity slot at the start of each iteration, before
the corresponding probe's result has arrived — and slots are accounted
exactly once per submitted probe: when all N results have been received,
exactly N capacity tokens were sent and received. -/
theorem c9_inflight_bound (N ncpus : Nat) (u : PoolState)
    (hreach : PoolReach N (8 * ncpus) u) :
    u.inFlight ≤ 8 * ncpus + 1
    ∧ (u.recvResults = N → u.recvTokens = N ∧ u.sent = N) := by
  obtain ⟨i1, i2, i3, i4, i5, i6, i7, i8⟩ := poolReach_inv hreach
  constructor
  · dsimp only [PoolState.inFlight, PoolState.spawned]
    cases hb : u.pendingSpawn <;> rw [hb] at i4 <;> simp at i4 ⊢ <;> omega
  · intro hdone
    omega

/-- Witness for C9 at the initial protocol state with one hardware
thread and nine targets. -/
theorem c9_inflight_bound_witness :
    initPool.inFlight ≤ 8 * 1 + 1
    ∧ (initPool.recvResults = 9 → initPool.recvTokens = 9 ∧ initPool.sent = 9) :=
  c9_inflight_bound 9 1 initPool PoolReach.init

/-- C9 counterexample: with one hardware thread (C = 8) and nine targets,
the protocol reaches a state with nine probes in flight: the main thread
fills the capacity channel and spawns eight probes, the consumer takes one
capacity token before any result exists, and the main thread admits and
spawns a ninth probe, exceeding the claimed ceiling C. -/
theorem c9_ceiling_counterexample :
    PoolReach 9 (8 * 1) sC9 ∧ 8 * 1 < sC9.inFlight := by
  constructor
  · have r0 : PoolReach 9 8 (⟨0, false, 0, 0, 0⟩ : PoolState) := PoolReach.init
    have r1 : PoolReach 9 8 (⟨1, true, 0, 0, 0⟩ : PoolState) :=
      r0.step (PoolStep.sendToken _ rfl (by decide) (by decide))
    have r2 : PoolReach 9 8 (⟨1, false, 0, 0, 0⟩ : PoolState) :=
      r1.step (PoolStep.spawn _ rfl)
    have r3 : PoolReach 9 8 (⟨2, true, 0, 0, 0⟩ : PoolState) :=
      r2.step (PoolStep.sendToken _ rfl (by decide) (by decide))
    have r4 : PoolReach 9 8 (⟨2, false, 0, 0, 0⟩ : PoolState) :=
      r3.step (PoolStep.spawn _ rfl)
    have r5 : PoolReach 9 8 (⟨3, true, 0, 0, 0⟩ : PoolState) :=
      r4.step (PoolStep.sendToken _ rfl (by decide) (by decide))
    have r6 : PoolReach 9 8 (⟨3, false, 0, 0, 0⟩ : PoolState) :=
      r5.step (PoolStep.spawn _ rfl)
    have r7 : PoolReach 9 8 (⟨4, true, 0, 0, 0⟩ : PoolState) :=
      r6.step (PoolStep.sendToken _ rfl (by decide) (by decide))
    have r8 : PoolReach 9 8 (⟨4, false, 0, 0, 0⟩ : PoolState) :=
      r7.step (PoolStep.spawn _ rfl)
    have r9 : PoolReach 9 8 (⟨5, true, 0, 0, 0⟩ : PoolState) :=
      r8.step (PoolStep.sendToken _ rfl (by decide) (by decide))
    have r10 : PoolReach 9 8 (⟨5, false, 0, 0, 0⟩ : PoolState) :=
      r9.step (PoolStep.spawn _ rfl)
    have r11 : PoolReach 9 8 (⟨6, true, 0, 0, 0⟩ : PoolState) :=
      r10.step (PoolStep.sendToken _ rfl (by decide) (by decide))
    have r12 : PoolReach 9 8 (⟨6, false, 0, 0, 0⟩ : PoolState) :=
      r11.step (PoolStep.spawn _ rfl)
    have r13 : PoolReach 9 8 (⟨7, true, 0, 0, 0⟩ : PoolState) :=
      r12.step (PoolStep.sendToken _ rfl (by decide) (by decide))
    have r14 : PoolReach 9 8 (⟨7, false, 0, 0, 0⟩ : PoolState) :=
      r13.step (PoolStep.spawn _ rfl)
    have r15 : PoolReach 9 8 (⟨8, true, 0, 0, 0⟩ : PoolState) :=
      r14.step (PoolStep.sendToken _ rfl (by decide) (by decide))
    have r16 : PoolReach 9 8 (⟨8, false, 0, 0, 0⟩ : PoolState) :=
      r15.step (PoolStep.spawn _ rfl)
    have r17 : PoolReach 9 8 (⟨8, false, 0, 1, 0⟩ : PoolState) :=
      r16.step (PoolStep.recvToken _ rfl (by decide) (by decide))
    have r18 : PoolReach 9 8 (⟨9, true, 0, 1, 0⟩ : PoolState) :=
      r17.step (PoolStep.sendToken _ rfl (by decide) (by decide))
    have r19 : PoolReach 9 8 (⟨9, false, 0, 1, 0⟩ : PoolState) :=
      r18.step (PoolStep.spawn _ rfl)
    exact r19
  · decide

/-- Witness for C1 at two concrete targets arriving in swapped order. -/
theorem c1_resolver_accounting_witness :
    (aggregate (([pdB, pdA].map (probe mdAllDirs false)).map Prod.fst) Exa.new).count = 2
    ∧ (∃ v, PoolStep 9 8 initPool v) := by
  have h := c1_resolver_accounting mdAllDirs false [pdA, pdB] [pdB, pdA] (by decide)
  exact ⟨h.1.1, h.2 9 8 initPool (by decide) PoolReach.init (by decide)⟩
